import Mathlib

/-!
Verification development for the GenExport manifest-export generator
(gen-exports.js).  The script scans a build directory for compiled `.js`
and `.d.ts` artifacts, groups them by logical module path, filters groups
by basename exclusion and by a content marker, synthesizes an export
descriptor per retained group, and rewrites the `exports` field of the
package manifest.

The embedding below translates the script's functions into Lean:

* JS strings are Lean `String`s; JS string builtins (`endsWith`, `slice`,
  `includes`, `trim`, `split`) are modelled by executable char-list
  functions below.
* Filesystem paths are modelled as lists of path segments of an absolute
  path (the root is `[]`).  Node's `path.join` / `path.relative` /
  `path.basename` / `path.resolve` are modelled on segment lists; the
  host path-separator convention is passed explicitly as `sep` where the
  code renders a relative path to a string (`path.relative` returns a
  string joined by the host separator; the script then replaces all
  backslashes with forward slashes).
* The filesystem is a snapshot: an association list from absolute path
  segments to file contents, plus the set of existing directories.
* JSON documents are modelled by the inductive `Json`; objects are
  ordered field lists (JS object insertion order).  JSON numbers are kept
  as their raw lexeme (no floating point semantics is needed by any
  property proved here).
* Fallible operations return `Except String`.
-/

/-! ## JS string primitives (char-list models of the JS builtins used) -/

/-- Model of the JS slice from the end: drop the last `n` characters. -/
def strDropRight (s : String) (n : Nat) : String :=
  String.mk (s.data.take (s.data.length - n))

/-- Model of JS `String.prototype.endsWith`. -/
def strEndsWith (s suff : String) : Bool :=
  suff.data.isSuffixOf s.data

/-- Helper for substring search: does `pat` occur in `s` (as a contiguous
block)?  `containsSub pat []` is `pat.isEmpty`, so the empty pattern is
found everywhere, matching JS `includes`. -/
def containsSub (pat : List Char) : List Char → Bool
  | [] => pat.isEmpty
  | c :: rest => pat.isPrefixOf (c :: rest) || containsSub pat rest

/-- Model of JS `String.prototype.includes`. -/
def strContains (s pat : String) : Bool :=
  containsSub pat.data s.data

/-- Whitespace characters trimmed by JS `String.prototype.trim`
(the common ASCII ones). -/
def isWsChar (c : Char) : Bool :=
  c == ' ' || c == '\t' || c == '\n' || c == '\r' || c == '\x0b' || c == '\x0c'

/-- Model of JS `String.prototype.trim`. -/
def strTrim (s : String) : String :=
  String.mk (((s.data.dropWhile isWsChar).reverse.dropWhile isWsChar).reverse)

/-- Splitting a char list on a separator character, accumulating the
current field in reverse.  Models JS `String.prototype.split` with a
one-character separator (an empty input yields one empty field). -/
def splitStrAux (sep : Char) : List Char → List Char → List String
  | [], cur => [String.mk cur.reverse]
  | c :: rest, cur =>
    if c == sep then String.mk cur.reverse :: splitStrAux sep rest []
    else splitStrAux sep rest (c :: cur)

/-- Model of JS `String.prototype.split` with a one-character separator. -/
def splitStr (sep : Char) (s : String) : List String :=
  splitStrAux sep s.data []

/-- Does the string contain a backslash character? -/
def hasBackslash (s : String) : Bool :=
  s.data.any (fun c => c == '\\')

/-- Model of `.replace(/\\/g, '/')`: replace every backslash by a forward
slash. -/
def replaceBackslash (s : String) : String :=
  String.mk (s.data.map (fun c => if c = '\\' then '/' else c))

/-! ## Path model (node `path` module on segment lists) -/

/-- Split a path string into its non-empty segments. -/
def pathSegsOf (s : String) : List String :=
  (splitStr '/' s).filter (fun x => x != "")

/-- Normalization of `.` and `..` segments as done by `path.join` /
`path.resolve` (a `..` at the root stays at the root). -/
def normSegs (l : List String) : List String :=
  l.foldl (fun acc seg =>
    if seg == "." then acc
    else if seg == ".." then acc.dropLast
    else acc ++ [seg]) []

/-- Model of `path.join(dir, rel)` for an absolute `dir` (as segments) and
a relative path string `rel`. -/
def pathJoin (dir : List String) (rel : String) : List String :=
  normSegs (dir ++ pathSegsOf rel)

/-- Does the path string start with a slash (an absolute posix path)? -/
def startsWithSlash (s : String) : Bool :=
  match s.data with
  | c :: _ => c == '/'
  | [] => false

/-- Model of `path.resolve(cwd, arg)`. -/
def resolveArg (cwd : List String) (arg : String) : List String :=
  if startsWithSlash arg then normSegs (pathSegsOf arg)
  else normSegs (cwd ++ pathSegsOf arg)

/-- Model of `path.basename`: strip trailing slashes, then take the part
after the last slash. -/
def basename (s : String) : String :=
  let t := (s.data.reverse.dropWhile (fun c => c == '/')).reverse
  (splitStrAux '/' t []).getLastD ""

/-- Drop the longest common prefix of two segment lists, returning the
two remainders (the core of `path.relative`). -/
def dropCommon : List String → List String → List String × List String
  | a :: as, b :: bs => if a = b then dropCommon as bs else (a :: as, b :: bs)
  | as, bs => (as, bs)

/-- The segments of `path.relative(fromDir, toPath)`: one `..` for every
remaining segment of the source after the common prefix, followed by the
remaining target segments. -/
def relSegs (fromDir toPath : List String) : List String :=
  let p := dropCommon fromDir toPath
  p.1.map (fun _ => "..") ++ p.2

/-- Join segments with a separator string (no trailing separator). -/
def joinSegs (sep : String) : List String → String
  | [] => ""
  | [a] => a
  | a :: b :: rest => a ++ sep ++ joinSegs sep (b :: rest)

/-- Model of the script's makeRelativePath: `path.relative(pkgDir, abs)`
rendered with the host separator `sep`, then every backslash replaced by
a forward slash. -/
def makeRelativePath (sep : String) (pkgDir absPath : List String) : String :=
  replaceBackslash (joinSegs sep (relSegs pkgDir absPath))

/-! ## Filesystem snapshot -/

/-- A filesystem snapshot: files (absolute segment path to contents) and
the set of existing directories. -/
structure FS where
  files : List (List String × String)
  dirs : List (List String)

/-- Association-list lookup for file contents. -/
def lookupPath : List (List String × String) → List String → Option String
  | [], _ => none
  | (q, c) :: rest, p => if q = p then some c else lookupPath rest p

/-- Association-list update/insert for file contents. -/
def writeAssoc : List (List String × String) → List String → String → List (List String × String)
  | [], p, c => [(p, c)]
  | (q, d) :: rest, p, c =>
    if q = p then (q, c) :: rest else (q, d) :: writeAssoc rest p c

/-- Model of `fs.readFileSync` (`none` means the read throws). -/
def fsRead (fs : FS) (p : List String) : Option String :=
  lookupPath fs.files p

/-- Model of `fs.existsSync` for files. -/
def fsExists (fs : FS) (p : List String) : Bool :=
  (fsRead fs p).isSome

/-- Model of `fs.existsSync` combined with `statSync(..).isDirectory()`. -/
def fsIsDir (fs : FS) (p : List String) : Bool :=
  fs.dirs.contains p

/-- Model of `fs.writeFileSync`. -/
def fsWrite (fs : FS) (p : List String) (c : String) : FS :=
  FS.mk (writeAssoc fs.files p c) fs.dirs

/-- Is the first segment list a prefix of the second? -/
def isPrefixSegs : List String → List String → Bool
  | [], _ => true
  | _ :: _, [] => false
  | a :: as, b :: bs => if a = b then isPrefixSegs as bs else false

/-- Does a path segment start with a dot (hidden entry, excluded by the
glob's default `dot: false`)? -/
def startsWithDot (s : String) : Bool :=
  match s.data with
  | c :: _ => c == '.'
  | [] => false

/-- Does a relative segment list match the glob patterns
`**/*.js` or `**/*.d.ts` (hidden entries excluded)? -/
def globRelOk (rel : List String) : Bool :=
  !rel.isEmpty &&
  rel.all (fun s => !s.isEmpty && !startsWithDot s) &&
  (strEndsWith (rel.getLastD "") ".js" || strEndsWith (rel.getLastD "") ".d.ts")

/-- Model of getDistFiles: fast-glob over the snapshot for
`**/*.js` and `**/*.d.ts` below `distDir`, returning paths relative to
`distDir` with forward-slash separators. -/
def getDistFiles (fs : FS) (distDir : List String) : List String :=
  fs.files.filterMap (fun pc =>
    if isPrefixSegs distDir pc.1 then
      let rel := pc.1.drop distDir.length
      if globRelOk rel then some (joinSegs "/" rel) else none
    else none)

/-! ## CLI argument parsing (parseCliArgs) -/

/-- Parsed CLI options, as returned by parseCliArgs. -/
structure CliOpts where
  buildDirArg : String
  excludeNames : List String
  pkgPathArg : Option String
  placeholder : String
deriving DecidableEq

/-- The processing of the value of `-i`/`--exclude`:
split on commas, trim each entry, drop entries that become empty
(`.split(',').map(s => s.trim()).filter(Boolean)`). -/
def splitExcludes (v : String) : List String :=
  ((splitStr ',' v).map strTrim).filter (fun s => s != "")

/-- The flag loop of parseCliArgs.  A flag is recognized only when it is
followed by a truthy (non-empty) value, exactly as the JS condition
`(arg === flag) && argv[i + 1]`; anything else is a usage error. -/
def parseFlags : List String → CliOpts → Except String CliOpts
  | [], o => Except.ok o
  | arg :: rest, o =>
    match rest with
    | [] => Except.error ("Unknown argument: " ++ arg)
    | v :: rest2 =>
      if (arg = "-i" ∨ arg = "--exclude") ∧ v ≠ "" then
        parseFlags rest2 (CliOpts.mk o.buildDirArg (splitExcludes v) o.pkgPathArg o.placeholder)
      else if (arg = "-p" ∨ arg = "--pkg") ∧ v ≠ "" then
        parseFlags rest2 (CliOpts.mk o.buildDirArg o.excludeNames (some v) o.placeholder)
      else if (arg = "-e" ∨ arg = "--exclude-placeholder") ∧ v ≠ "" then
        parseFlags rest2 (CliOpts.mk o.buildDirArg o.excludeNames o.pkgPathArg v)
      else Except.error ("Unknown argument: " ++ arg)

/-- Model of parseCliArgs: first positional argument is the build
directory; remaining arguments are flags; the content marker defaults to
the reserved token. -/
def parseCliArgs (argv : List String) : Except String CliOpts :=
  match argv with
  | [] => Except.error "Usage: gen-exports.js <buildDir> [-i e1,name2,...] [-p path/to/package.json] [-e placeholder]"
  | bd :: rest => parseFlags rest (CliOpts.mk bd [] none "$RESERVED$")

/-! ## Grouping artifacts by logical module path -/

/-- A module group: at most one runtime (`.js`) artifact and at most one
declaration (`.d.ts`) artifact. -/
structure ModGroup where
  js : Option String
  dts : Option String
deriving DecidableEq

/-- Classify an artifact file name: `some (base, true)` for a `.js` file
with its extension stripped, `some (base, false)` for a `.d.ts` file,
`none` otherwise (the `.js` test comes first, as in the source). -/
def classify (file : String) : Option (String × Bool) :=
  if strEndsWith file ".js" then some (strDropRight file 3, true)
  else if strEndsWith file ".d.ts" then some (strDropRight file 5, false)
  else none

/-- Store an artifact in the matching slot of a group
(`acc[base][ext] = file`). -/
def setExt (g : ModGroup) (isJs : Bool) (file : String) : ModGroup :=
  if isJs then ModGroup.mk (some file) g.dts else ModGroup.mk g.js (some file)

/-- Ordered association-list update for the grouping accumulator:
update the existing entry for `base` in place, or append a new one
(JS object key insertion order). -/
def updateAssoc : List (String × ModGroup) → String → Bool → String → List (String × ModGroup)
  | [], base, isJs, file => [(base, setExt (ModGroup.mk none none) isJs file)]
  | (b, g) :: rest, base, isJs, file =>
    if b = base then (b, setExt g isJs file) :: rest
    else (b, g) :: updateAssoc rest base isJs file

/-- One step of the grouping fold. -/
def groupStep (acc : List (String × ModGroup)) (file : String) : List (String × ModGroup) :=
  match classify file with
  | none => acc
  | some (base, isJs) => updateAssoc acc base isJs file

/-- Step 1 of buildExportsMap: group the collected files by base name. -/
def groupFiles (files : List String) : List (String × ModGroup) :=
  files.foldl groupStep []

/-- Lookup of a group by its base (first match). -/
def lookupGroup : List (String × ModGroup) → String → Option ModGroup
  | [], _ => none
  | (b, g) :: rest, base => if b = base then some g else lookupGroup rest base

/-! ## Building the exports map -/

/-- The options threaded through buildExportsMap, plus the host path
separator `sep` used when rendering relative paths. -/
structure BuildOpts where
  sep : String
  distDir : List String
  pkgDir : List String
  excludeNames : List String
  placeholder : String

/-- An export descriptor: the generated entry for a retained group.
An absent field is `none` and is omitted from the serialized object. -/
structure ExportEntry where
  importRef : Option String
  requireRef : Option String
  typesRef : Option String
deriving DecidableEq

/-- The warning printed when a file is skipped because of the content
marker. -/
def warnMsg (file placeholder : String) : String :=
  "Skipping " ++ file ++ " (found placeholder " ++ placeholder ++ ")"

/-- Model of checkReserved: read the artifact's text and report whether
it contains the marker.  A missing file makes the read throw. -/
def checkReserved (fs : FS) (distDir : List String) (fileToCheck placeholder : String) : Except String Bool :=
  match fsRead fs (pathJoin distDir fileToCheck) with
  | none => Except.error ("ENOENT: no such file " ++ fileToCheck)
  | some content => Except.ok (strContains content placeholder)

/-- The reference emitted for an artifact: its path relative to the
manifest directory, forward-slash separated, prefixed with "./". -/
def refFor (o : BuildOpts) (f : String) : String :=
  "./" ++ makeRelativePath o.sep o.pkgDir (pathJoin o.distDir f)

/-- The export descriptor of a group: import/require (the same value)
exactly when a `.js` artifact exists, types exactly when a `.d.ts`
artifact exists. -/
def buildEntry (o : BuildOpts) (g : ModGroup) : ExportEntry :=
  ExportEntry.mk (g.js.map (refFor o)) (g.js.map (refFor o)) (g.dts.map (refFor o))

/-- The outcome for one group: kept with its descriptor, skipped by
basename exclusion, or skipped by the content marker (with the warning
text). -/
inductive GroupResult where
  | keep : ExportEntry → GroupResult
  | skipName : GroupResult
  | skipMarker : String → GroupResult
deriving DecidableEq

/-- The declaration-file half of the per-group filtering. -/
def processDts (fs : FS) (o : BuildOpts) (g : ModGroup) : Except String GroupResult :=
  match g.dts with
  | some dtsF =>
    match checkReserved fs o.distDir dtsF o.placeholder with
    | Except.error e => Except.error e
    | Except.ok true => Except.ok (GroupResult.skipMarker (warnMsg dtsF o.placeholder))
    | Except.ok false => Except.ok (GroupResult.keep (buildEntry o g))
  | none => Except.ok (GroupResult.keep (buildEntry o g))

/-- Per-group filtering: basename exclusion first, then the content
marker on the runtime file (when present), then on the declaration file
(when present). -/
def processGroup (fs : FS) (o : BuildOpts) (base : String) (g : ModGroup) : Except String GroupResult :=
  if basename base ∈ o.excludeNames then Except.ok GroupResult.skipName
  else
    match g.js with
    | some jsF =>
      match checkReserved fs o.distDir jsF o.placeholder with
      | Except.error e => Except.error e
      | Except.ok true => Except.ok (GroupResult.skipMarker (warnMsg jsF o.placeholder))
      | Except.ok false => processDts fs o g
    | none => processDts fs o g

/-- Step 2 of buildExportsMap: iterate the groups in order, skipping the
excluded ones and collecting the export entries and the warnings. -/
def buildGroupsLoop (fs : FS) (o : BuildOpts) : List (String × ModGroup) → Except String (List (String × ExportEntry) × List String)
  | [] => Except.ok ([], [])
  | (base, g) :: rest =>
    match processGroup fs o base g with
    | Except.error e => Except.error e
    | Except.ok r =>
      match buildGroupsLoop fs o rest with
      | Except.error e => Except.error e
      | Except.ok (m, ws) =>
        match r with
        | GroupResult.keep entry => Except.ok (("./" ++ base, entry) :: m, ws)
        | GroupResult.skipName => Except.ok (m, ws)
        | GroupResult.skipMarker w => Except.ok (m, w :: ws)

/-- Model of buildExportsMap: group, then filter and synthesize.  The
result is the ordered exports map together with the warnings printed. -/
def buildExportsMap (fs : FS) (files : List String) (o : BuildOpts) : Except String (List (String × ExportEntry) × List String) :=
  buildGroupsLoop fs o (groupFiles files)

/-! ## JSON documents -/

/-- A JSON document.  Objects are ordered field lists (JS insertion
order).  Numbers are kept as their raw lexeme: no property below depends
on numeric semantics. -/
inductive Json where
  | null : Json
  | bool : Bool → Json
  | num : String → Json
  | str : String → Json
  | arr : List Json → Json
  | obj : List (String × Json) → Json

/-- JS property assignment on an object: replace the value of the first
field with this key in place (keeping its position), or append the field
at the end. -/
def setField : List (String × Json) → String → Json → List (String × Json)
  | [], k, v => [(k, v)]
  | (k1, v1) :: rest, k, v =>
    if k1 = k then (k1, v) :: rest
    else (k1, v1) :: setField rest k v

/-- JS property read on an object (first matching field). -/
def getField : List (String × Json) → String → Option Json
  | [], _ => none
  | (k1, v1) :: rest, k => if k1 = k then some v1 else getField rest k

/-- The fields of the serialized export descriptor, in the source's
insertion order; an absent reference contributes no field at all. -/
def entryFields (e : ExportEntry) : List (String × Json) :=
  (match e.importRef with
   | some v => [("import", Json.str v)]
   | none => []) ++
  (match e.requireRef with
   | some v => [("require", Json.str v)]
   | none => []) ++
  (match e.typesRef with
   | some v => [("types", Json.str v)]
   | none => [])

/-- The export descriptor as a JSON object. -/
def entryToJson (e : ExportEntry) : Json :=
  Json.obj (entryFields e)

/-- The whole exports map as a JSON object. -/
def exportsToJson (m : List (String × ExportEntry)) : Json :=
  Json.obj (m.map (fun kv => (kv.1, entryToJson kv.2)))

/-! ## JSON serialization (JSON.stringify(obj, null, 2)) -/

/-- Lowercase hex digit. -/
def hexDigit (n : Nat) : Char :=
  if n < 10 then Char.ofNat (48 + n) else Char.ofNat (87 + n)

/-- Escape one character for a JSON string literal. -/
def escChar (c : Char) : List Char :=
  if c = '"' then ['\\', '"']
  else if c = '\\' then ['\\', '\\']
  else if c = '\n' then ['\\', 'n']
  else if c = '\t' then ['\\', 't']
  else if c = '\r' then ['\\', 'r']
  else if c = '\x08' then ['\\', 'b']
  else if c = '\x0c' then ['\\', 'f']
  else if c.toNat < 32 then
    ['\\', 'u', '0', '0', hexDigit (c.toNat / 16), hexDigit (c.toNat % 16)]
  else [c]

/-- Quote a string as a JSON string literal. -/
def quoteStr (s : String) : String :=
  "\"" ++ String.mk (s.data.foldr (fun c acc => escChar c ++ acc) []) ++ "\""

/-- The indentation for nesting depth `d` with a 2-space indent unit. -/
def indentStr (d : Nat) : String :=
  String.mk (List.replicate (2 * d) ' ')

mutual

/-- Model of JSON.stringify(value, null, 2) at nesting depth `d`. -/
def serJson : Nat → Json → String
  | _, Json.null => "null"
  | _, Json.bool b => if b then "true" else "false"
  | _, Json.num raw => raw
  | _, Json.str s => quoteStr s
  | _, Json.arr [] => "[]"
  | d, Json.arr (x :: xs) =>
    "[\n" ++ serArrItems (d + 1) (x :: xs) ++ "\n" ++ indentStr d ++ "]"
  | _, Json.obj [] => "\x7b\x7d"
  | d, Json.obj (kv :: kvs) =>
    "\x7b\n" ++ serObjItems (d + 1) (kv :: kvs) ++ "\n" ++ indentStr d ++ "\x7d"
termination_by _ j => sizeOf j

/-- Serialize the items of an array, comma-and-newline separated, each
on its own indented line. -/
def serArrItems : Nat → List Json → String
  | _, [] => ""
  | d, [x] => indentStr d ++ serJson d x
  | d, x :: y :: ys => indentStr d ++ serJson d x ++ ",\n" ++ serArrItems d (y :: ys)
termination_by _ l => sizeOf l

/-- Serialize the fields of an object, comma-and-newline separated, each
on its own indented line. -/
def serObjItems : Nat → List (String × Json) → String
  | _, [] => ""
  | d, [(k, v)] => indentStr d ++ quoteStr k ++ ": " ++ serJson d v
  | d, (k, v) :: kv2 :: rest =>
    indentStr d ++ quoteStr k ++ ": " ++ serJson d v ++ ",\n" ++ serObjItems d (kv2 :: rest)
termination_by _ l => sizeOf l

end

/-- Model of writeJson's file contents:
`JSON.stringify(obj, null, 2) + '\n'`. -/
def writeJson (j : Json) : String :=
  serJson 0 j ++ "\n"

/-! ## JSON parsing (a model of JSON.parse) -/

/-- Skip JSON whitespace. -/
def skipWs (cs : List Char) : List Char :=
  cs.dropWhile (fun c => c == ' ' || c == '\n' || c == '\t' || c == '\r')

/-- The value of a hex digit. -/
def hexVal (c : Char) : Option Nat :=
  if '0' ≤ c ∧ c ≤ '9' then some (c.toNat - 48)
  else if 'a' ≤ c ∧ c ≤ 'f' then some (c.toNat - 87)
  else if 'A' ≤ c ∧ c ≤ 'F' then some (c.toNat - 55)
  else none

/-- Decode a one-character JSON escape. -/
def escDecode (e : Char) : Option Char :=
  if e = '"' then some '"'
  else if e = '\\' then some '\\'
  else if e = '/' then some '/'
  else if e = 'n' then some '\n'
  else if e = 't' then some '\t'
  else if e = 'r' then some '\r'
  else if e = 'b' then some '\x08'
  else if e = 'f' then some '\x0c'
  else none

/-- Parse the remainder of a JSON string literal (after the opening
quote), returning the content and the rest of the input. -/
def parseStrChars : List Char → Except String (List Char × List Char)
  | [] => Except.error "Unterminated string in JSON"
  | c :: rest =>
    if c = '"' then Except.ok ([], rest)
    else if c = '\\' then
      match rest with
      | [] => Except.error "Bad escape in JSON string"
      | e :: rest2 =>
        if e = 'u' then
          match rest2 with
          | a :: b :: c2 :: d :: rest3 =>
            match hexVal a, hexVal b, hexVal c2, hexVal d with
            | some ha, some hb, some hc, some hd =>
              match parseStrChars rest3 with
              | Except.ok (tail, rem) =>
                Except.ok (Char.ofNat (((ha * 16 + hb) * 16 + hc) * 16 + hd) :: tail, rem)
              | Except.error er => Except.error er
            | _, _, _, _ => Except.error "Bad unicode escape in JSON string"
          | _ => Except.error "Bad unicode escape in JSON string"
        else
          match escDecode e with
          | some c1 =>
            match parseStrChars rest2 with
            | Except.ok (tail, rem) => Except.ok (c1 :: tail, rem)
            | Except.error er => Except.error er
          | none => Except.error "Bad escape in JSON string"
    else
      match parseStrChars rest with
      | Except.ok (tail, rem) => Except.ok (c :: tail, rem)
      | Except.error er => Except.error er

/-- Characters that may occur in a JSON number lexeme. -/
def isNumChar (c : Char) : Bool :=
  c == '-' || c == '+' || c == '.' || c == 'e' || c == 'E' || ('0' ≤ c && c ≤ '9')

/-- Take a number lexeme from the front of the input. -/
def parseNumLex (cs : List Char) : Except String (String × List Char) :=
  let lex := cs.takeWhile isNumChar
  if lex.isEmpty then Except.error "Invalid number in JSON"
  else Except.ok (String.mk lex, cs.drop lex.length)

/-- Match a literal keyword tail and return the given value. -/
def expectLit (lit : String) (cs : List Char) (v : Json) : Except String (Json × List Char) :=
  if lit.data.isPrefixOf cs then Except.ok (v, cs.drop lit.data.length)
  else Except.error "Unexpected token in JSON"

mutual

/-- Parse one JSON value (fuel-indexed recursive descent). -/
def parseVal : Nat → List Char → Except String (Json × List Char)
  | 0, _ => Except.error "JSON nesting too deep"
  | Nat.succ fuel, cs =>
    match skipWs cs with
    | [] => Except.error "Unexpected end of JSON input"
    | c :: rest =>
      if c = '\x7b' then
        match skipWs rest with
        | '\x7d' :: rem => Except.ok (Json.obj [], rem)
        | rest2 => parseMembers fuel rest2 []
      else if c = '[' then
        match skipWs rest with
        | ']' :: rem => Except.ok (Json.arr [], rem)
        | rest2 => parseItems fuel rest2 []
      else if c = '"' then
        match parseStrChars rest with
        | Except.ok (content, rem) => Except.ok (Json.str (String.mk content), rem)
        | Except.error e => Except.error e
      else if c = 't' then expectLit "rue" rest (Json.bool true)
      else if c = 'f' then expectLit "alse" rest (Json.bool false)
      else if c = 'n' then expectLit "ull" rest Json.null
      else if c = '-' ∨ ('0' ≤ c ∧ c ≤ '9') then
        match parseNumLex (c :: rest) with
        | Except.ok (lex, rem) => Except.ok (Json.num lex, rem)
        | Except.error e => Except.error e
      else Except.error "Unexpected token in JSON"

/-- Parse the members of a non-empty JSON object (duplicate keys
overwrite in place, as in JS). -/
def parseMembers : Nat → List Char → List (String × Json) → Except String (Json × List Char)
  | 0, _, _ => Except.error "JSON nesting too deep"
  | Nat.succ fuel, cs, acc =>
    match skipWs cs with
    | '"' :: rest =>
      match parseStrChars rest with
      | Except.error e => Except.error e
      | Except.ok (key, rest2) =>
        match skipWs rest2 with
        | ':' :: rest3 =>
          match parseVal fuel rest3 with
          | Except.error e => Except.error e
          | Except.ok (v, rest4) =>
            match skipWs rest4 with
            | ',' :: rest5 => parseMembers fuel rest5 (setField acc (String.mk key) v)
            | '\x7d' :: rest5 => Except.ok (Json.obj (setField acc (String.mk key) v), rest5)
            | _ => Except.error "Expected comma or closing brace in JSON object"
        | _ => Except.error "Expected colon in JSON object"
    | _ => Except.error "Expected string key in JSON object"

/-- Parse the items of a non-empty JSON array. -/
def parseItems : Nat → List Char → List Json → Except String (Json × List Char)
  | 0, _, _ => Except.error "JSON nesting too deep"
  | Nat.succ fuel, cs, acc =>
    match parseVal fuel cs with
    | Except.error e => Except.error e
    | Except.ok (v, rest) =>
      match skipWs rest with
      | ',' :: rest2 => parseItems fuel rest2 (acc ++ [v])
      | ']' :: rest2 => Except.ok (Json.arr (acc ++ [v]), rest2)
      | _ => Except.error "Expected comma or closing bracket in JSON array"

end

/-- Model of JSON.parse (readJson's parsing step). -/
def parseJson (s : String) : Except String Json :=
  match parseVal (s.data.length + 1) s.data with
  | Except.error e => Except.error e
  | Except.ok (v, rest) =>
    match skipWs rest with
    | [] => Except.ok v
    | _ => Except.error "Unexpected non-whitespace character after JSON"

/-! ## Main pipeline -/

/-- Model of `pkg.exports = exportsMap` on the parsed manifest value.
On an object the field is replaced (or appended); on `null` the JS
assignment throws a TypeError; on any other non-object value the
non-strict assignment is a no-op as far as the serialized result is
concerned. -/
def assignExports (pkg : Json) (e : Json) : Except String Json :=
  match pkg with
  | Json.null => Except.error "TypeError: Cannot set properties of null"
  | Json.obj fields => Except.ok (Json.obj (setField fields "exports" e))
  | other => Except.ok other

/-- Resolved locations computed by resolvePaths. -/
structure ResolvedPaths where
  pkgPath : List String
  pkgDir : List String
  distDir : List String

/-- The upward walk of findNearestPackageJson with explicit fuel (one
step per removed path segment; the walk stops at `rootDir` or at the
filesystem root). -/
def findNearestAux (fs : FS) (rootDir : List String) : Nat → List String → Option (List String)
  | 0, _ => none
  | Nat.succ fuel, dir =>
    if fsExists fs (dir ++ ["package.json"]) then some (dir ++ ["package.json"])
    else if dir = rootDir ∨ dir = [] then none
    else findNearestAux fs rootDir fuel dir.dropLast

/-- Model of findNearestPackageJson: walk upwards from `startDir` to
`rootDir`, returning the first package.json found. -/
def findNearestPackageJson (fs : FS) (startDir rootDir : List String) : Option (List String) :=
  findNearestAux fs rootDir (startDir.length + 1) startDir

/-- Model of resolvePaths: validate the build directory, then choose the
manifest (explicit override, else nearest above the build directory,
else the one in the working directory). -/
def resolvePaths (fs : FS) (cwd : List String) (buildDirArg : String) (pkgPathArg : Option String) : Except String ResolvedPaths :=
  let buildPath := resolveArg cwd buildDirArg
  if fsIsDir fs buildPath = false then
    Except.error "Error: build directory not found or not a directory"
  else
    match pkgPathArg with
    | some p =>
      let pkgPath := resolveArg cwd p
      if fsExists fs pkgPath then Except.ok (ResolvedPaths.mk pkgPath pkgPath.dropLast buildPath)
      else Except.error "Error: package.json not found at override path"
    | none =>
      match findNearestPackageJson fs buildPath cwd with
      | some pkgPath => Except.ok (ResolvedPaths.mk pkgPath pkgPath.dropLast buildPath)
      | none =>
        let pkgPath := cwd ++ ["package.json"]
        if fsExists fs pkgPath then Except.ok (ResolvedPaths.mk pkgPath pkgPath.dropLast buildPath)
        else Except.error "Error: could not locate any package.json"

/-- The read-only part of main: everything up to (but not including) the
final writeJson.  Returns the manifest path, the exact bytes to write,
and the export keys for the success message. -/
def mainPipeline (sep : String) (fs : FS) (cwd : List String) (argv : List String) : Except String (List String × String × List String) :=
  match parseCliArgs argv with
  | Except.error e => Except.error e
  | Except.ok cli =>
    match resolvePaths fs cwd cli.buildDirArg cli.pkgPathArg with
    | Except.error e => Except.error e
    | Except.ok rp =>
      match fsRead fs rp.pkgPath with
      | none => Except.error "ENOENT: cannot read package.json"
      | some bytes =>
        match parseJson bytes with
        | Except.error e => Except.error e
        | Except.ok pkg =>
          let files := getDistFiles fs rp.distDir
          let o := BuildOpts.mk sep rp.distDir rp.pkgDir cli.excludeNames cli.placeholder
          match buildExportsMap fs files o with
          | Except.error e => Except.error e
          | Except.ok (em, _ws) =>
            match assignExports pkg (exportsToJson em) with
            | Except.error e => Except.error e
            | Except.ok pkg1 =>
              Except.ok (rp.pkgPath, writeJson pkg1, em.map (fun kv => kv.1))

/-- Model of main: run the pipeline on the snapshot; on success the
manifest file is overwritten with the computed bytes, on failure the
snapshot is returned untouched and the error is reported (exit 1). -/
def mainRun (sep : String) (fs : FS) (cwd : List String) (argv : List String) : FS × Except String (List String) :=
  match mainPipeline sep fs cwd argv with
  | Except.error e => (fs, Except.error e)
  | Except.ok (pkgPath, bytes, keys) => (fsWrite fs pkgPath bytes, Except.ok keys)

/-- One run at the manifest-value level: the manifest file's contents
are represented by their parsed field list (JSON read/write are external
collaborators; a written manifest parses back to the value written).
The run replaces the `exports` field with the newly synthesized map. -/
def runOnManifest (fs : FS) (files : List String) (o : BuildOpts) (pkg : List (String × Json)) : Except String (List (String × Json)) :=
  match buildExportsMap fs files o with
  | Except.error e => Except.error e
  | Except.ok (em, _ws) => Except.ok (setField pkg "exports" (exportsToJson em))

/-- The bytes writeJson persists for a manifest field list. -/
def writtenBytes (pkg : List (String × Json)) : String :=
  writeJson (Json.obj pkg)

/-! ## Helper lemmas on JS property assignment -/

/-- Assigning the same value to the same key twice equals assigning it
once. -/
theorem setField_setField (l : List (String × Json)) (k : String) (v : Json) :
    setField (setField l k v) k v = setField l k v := by
  induction l with
  | nil => simp [setField]
  | cons p rest ih =>
    obtain ⟨k1, v1⟩ := p
    by_cases h : k1 = k <;> simp [setField, h, ih]

/-- Reading an assigned key returns the assigned value. -/
theorem getField_setField_self (l : List (String × Json)) (k : String) (v : Json) :
    getField (setField l k v) k = some v := by
  induction l with
  | nil => simp [setField, getField]
  | cons p rest ih =>
    obtain ⟨k1, v1⟩ := p
    by_cases h : k1 = k <;> simp [setField, getField, h, ih]

/-- Assigning one key leaves every other key unchanged. -/
theorem getField_setField_ne (l : List (String × Json)) (k k1 : String) (v : Json)
    (h : k1 ≠ k) : getField (setField l k v) k1 = getField l k1 := by
  induction l with
  | nil =>
    simp only [setField, getField]
    rw [if_neg (fun he => h he.symm)]
  | cons p rest ih =>
    obtain ⟨k2, v2⟩ := p
    simp only [setField]
    by_cases h2 : k2 = k
    · rw [if_pos h2]
      simp only [getField]
      have h3 : ¬ k2 = k1 := fun he => h (he.symm.trans h2)
      rw [if_neg h3, if_neg h3]
    · rw [if_neg h2]
      simp only [getField]
      by_cases h3 : k2 = k1
      · rw [if_pos h3, if_pos h3]
      · rw [if_neg h3, if_neg h3]
        exact ih

/-- C3: running the generator twice in succession on an unchanged build
directory (same snapshot, same collected files, same options) produces
byte-identical manifests: the second run, whose input manifest value is
the one the first run wrote, succeeds and writes exactly the bytes the
first run wrote.  (The manifest file is represented by its parsed field
list; JSON read/write are the platform's inverse pair.) -/
theorem run_twice_writes_identical_bytes (fs : FS) (files : List String) (o : BuildOpts)
    (pkg pkg1 : List (String × Json))
    (h : runOnManifest fs files o pkg = Except.ok pkg1) :
    runOnManifest fs files o pkg1 = Except.ok pkg1 ∧
    (∀ pkg2, runOnManifest fs files o pkg1 = Except.ok pkg2 →
      writtenBytes pkg2 = writtenBytes pkg1) := by
  unfold runOnManifest at h ⊢
  cases hb : buildExportsMap fs files o with
  | error e => rw [hb] at h; exact absurd h (by simp)
  | ok p =>
    rw [hb] at h
    obtain ⟨em, ws⟩ := p
    simp only [Except.ok.injEq] at h
    subst h
    refine ⟨by simp [setField_setField], ?_⟩
    intro pkg2 h2
    simp only [setField_setField, Except.ok.injEq] at h2
    rw [← h2]

/-- C4: after a successful run every manifest field other than `exports`
is unchanged, and `exports` holds exactly the newly synthesized map
(full replacement). -/
theorem exports_replaced_others_preserved (fs : FS) (files : List String) (o : BuildOpts)
    (pkg pkg1 : List (String × Json)) (em : List (String × ExportEntry)) (ws : List String)
    (hb : buildExportsMap fs files o = Except.ok (em, ws))
    (h : runOnManifest fs files o pkg = Except.ok pkg1) :
    (∀ k, k ≠ "exports" → getField pkg1 k = getField pkg k) ∧
    getField pkg1 "exports" = some (exportsToJson em) := by
  unfold runOnManifest at h
  rw [hb] at h
  simp only [Except.ok.injEq] at h
  subst h
  exact ⟨fun k hk => getField_setField_ne _ _ _ _ hk, getField_setField_self _ _ _⟩

/-- C7: the manifest is written only after the whole pipeline has
succeeded in memory; a run that fails anywhere before the final write
leaves the filesystem (and hence the manifest) unchanged. -/
theorem failed_run_leaves_manifest_unchanged (sep : String) (fs : FS) (cwd : List String)
    (argv : List String) (e : String)
    (h : (mainRun sep fs cwd argv).2 = Except.error e) :
    (mainRun sep fs cwd argv).1 = fs := by
  unfold mainRun at h ⊢
  cases hp : mainPipeline sep fs cwd argv with
  | error e2 => simp
  | ok t =>
    rw [hp] at h
    obtain ⟨a, b, c⟩ := t
    simp at h

/-- A small snapshot used by concrete instantiations: one runtime
artifact in the build directory. -/
def fsIdx : FS :=
  FS.mk [(["p", "dist", "index.js"], "code")] [["p"], ["p", "dist"]]

/-- Build options for the snapshot above (posix separator, build
directory `/p/dist`, manifest directory `/p`). -/
def oIdx : BuildOpts :=
  BuildOpts.mk "/" ["p", "dist"] ["p"] [] "$RESERVED$"

/-- The manifest value produced by one run on the snapshot above from
the input manifest with a single `name` field. -/
def pkgIdx : List (String × Json) :=
  [("name", Json.str "t"),
   ("exports", Json.obj [("./index",
      Json.obj [("import", Json.str "./dist/index.js"),
                ("require", Json.str "./dist/index.js")])])]

/-- Witness for C3 at a concrete snapshot: the first run produces
`pkgIdx`, and the second run on `pkgIdx` reproduces it exactly. -/
theorem run_twice_writes_identical_bytes_witness :
    runOnManifest fsIdx ["index.js"] oIdx [("name", Json.str "t")] = Except.ok pkgIdx ∧
    runOnManifest fsIdx ["index.js"] oIdx pkgIdx = Except.ok pkgIdx :=
  ⟨rfl,
   (run_twice_writes_identical_bytes fsIdx ["index.js"] oIdx
     [("name", Json.str "t")] pkgIdx rfl).1⟩

/-- Witness for C4 at a concrete snapshot: the `name` field survives the
run unchanged and `exports` holds exactly the synthesized map. -/
theorem exports_replaced_others_preserved_witness :
    getField pkgIdx "name" = getField [("name", Json.str "t")] "name" ∧
    getField pkgIdx "exports" = some (exportsToJson
      [("./index", ExportEntry.mk (some "./dist/index.js") (some "./dist/index.js") none)]) := by
  have h := exports_replaced_others_preserved fsIdx ["index.js"] oIdx
    [("name", Json.str "t")] pkgIdx
    [("./index", ExportEntry.mk (some "./dist/index.js") (some "./dist/index.js") none)] []
    rfl rfl
  exact ⟨h.1 "name" (by decide), h.2⟩

/-- Witness for C7 at a concrete failing input: the run fails (missing
build directory) and the filesystem is returned untouched. -/
theorem failed_run_leaves_manifest_unchanged_witness :
    (mainRun "/" (FS.mk [] []) [] ["nodir"]).2 =
      Except.error "Error: build directory not found or not a directory" ∧
    (mainRun "/" (FS.mk [] []) [] ["nodir"]).1 = FS.mk [] [] :=
  ⟨rfl,
   failed_run_leaves_manifest_unchanged "/" (FS.mk [] []) [] ["nodir"]
     "Error: build directory not found or not a directory" rfl⟩

/-- C2: if either artifact of a group contains the content marker, the
whole group is dropped: processGroup reports a marker skip (a warning),
not an error, and the loop over the group completes successfully with
the group absent from the map and a warning recorded. -/
theorem marker_in_either_file_drops_group (fs : FS) (o : BuildOpts)
    (base jsF dtsF cJs cDts : String)
    (hname : basename base ∉ o.excludeNames)
    (hjs : fsRead fs (pathJoin o.distDir jsF) = some cJs)
    (hdts : fsRead fs (pathJoin o.distDir dtsF) = some cDts)
    (hmark : strContains cJs o.placeholder = true ∨ strContains cDts o.placeholder = true) :
    ∃ w, processGroup fs o base (ModGroup.mk (some jsF) (some dtsF)) =
           Except.ok (GroupResult.skipMarker w) ∧
         buildGroupsLoop fs o [(base, ModGroup.mk (some jsF) (some dtsF))] =
           Except.ok ([], [w]) := by
  have hcj : checkReserved fs o.distDir jsF o.placeholder =
      Except.ok (strContains cJs o.placeholder) := by
    unfold checkReserved; rw [hjs]
  have hcd : checkReserved fs o.distDir dtsF o.placeholder =
      Except.ok (strContains cDts o.placeholder) := by
    unfold checkReserved; rw [hdts]
  have mkskip : ∀ w, processGroup fs o base (ModGroup.mk (some jsF) (some dtsF)) =
      Except.ok (GroupResult.skipMarker w) →
      buildGroupsLoop fs o [(base, ModGroup.mk (some jsF) (some dtsF))] =
        Except.ok ([], [w]) := by
    intro w hw
    simp [buildGroupsLoop, hw]
  cases hj : strContains cJs o.placeholder with
  | true =>
    have hpg : processGroup fs o base (ModGroup.mk (some jsF) (some dtsF)) =
        Except.ok (GroupResult.skipMarker (warnMsg jsF o.placeholder)) := by
      simp only [processGroup, if_neg hname, hcj, hj]
    exact ⟨_, hpg, mkskip _ hpg⟩
  | false =>
    have hd : strContains cDts o.placeholder = true := by
      rcases hmark with h | h
      · rw [hj] at h; exact absurd h (by simp)
      · exact h
    have hpg : processGroup fs o base (ModGroup.mk (some jsF) (some dtsF)) =
        Except.ok (GroupResult.skipMarker (warnMsg dtsF o.placeholder)) := by
      simp only [processGroup, if_neg hname, hcj, hj, processDts, hcd, hd]
    exact ⟨_, hpg, mkskip _ hpg⟩

/-- A snapshot where the declaration file carries the marker but the
runtime file is clean. -/
def fsMk : FS :=
  FS.mk [(["p", "dist", "a.js"], "clean"),
         (["p", "dist", "a.d.ts"], "x $RESERVED$ y")] [["p"], ["p", "dist"]]

/-- Witness for C2: the marker in only the declaration file suffices to
drop the whole group, with a warning and no error. -/
theorem marker_in_either_file_drops_group_witness :
    ∃ w, processGroup fsMk oIdx "a" (ModGroup.mk (some "a.js") (some "a.d.ts")) =
           Except.ok (GroupResult.skipMarker w) ∧
         buildGroupsLoop fsMk oIdx [("a", ModGroup.mk (some "a.js") (some "a.d.ts"))] =
           Except.ok ([], [w]) :=
  marker_in_either_file_drops_group fsMk oIdx "a" "a.js" "a.d.ts" "clean" "x $RESERVED$ y"
    (by decide) rfl rfl (Or.inr (by decide))

/-- The flag loop changes the placeholder only when it consumes an
`-e`/`--exclude-placeholder` flag. -/
theorem parseFlags_placeholder_stable : ∀ (args : List String) (o o' : CliOpts),
    "-e" ∉ args → "--exclude-placeholder" ∉ args →
    parseFlags args o = Except.ok o' → o'.placeholder = o.placeholder
  | [], o, o', _, _, h => by
    simp only [parseFlags, Except.ok.injEq] at h
    rw [← h]
  | [arg], o, o', _, _, h => by
    simp [parseFlags] at h
  | arg :: v :: rest2, o, o', h1, h2, h => by
    have h1r : "-e" ∉ rest2 := fun hm => h1 (by simp [hm])
    have h2r : "--exclude-placeholder" ∉ rest2 := fun hm => h2 (by simp [hm])
    have harg1 : arg ≠ "-e" := fun he => h1 (by simp [he])
    have harg2 : arg ≠ "--exclude-placeholder" := fun he => h2 (by simp [he])
    simp only [parseFlags] at h
    split at h
    · exact parseFlags_placeholder_stable rest2
        (CliOpts.mk o.buildDirArg (splitExcludes v) o.pkgPathArg o.placeholder) o' h1r h2r h
    · split at h
      · exact parseFlags_placeholder_stable rest2
          (CliOpts.mk o.buildDirArg o.excludeNames (some v) o.placeholder) o' h1r h2r h
      · split at h
        · rename_i hc
          rcases hc.1 with he | he
          · exact absurd he harg1
          · exact absurd he harg2
        · simp at h

/-- C9: with no `-e`/`--exclude-placeholder` flag the content marker is
the fixed reserved token; giving `-e` with a (non-empty) value makes
that literal the marker; and a file containing the default token is
flagged by checkReserved under the default marker. -/
theorem placeholder_default_and_override (bd v : String) (args : List String)
    (hv : v ≠ "") (h1 : "-e" ∉ args) (h2 : "--exclude-placeholder" ∉ args) :
    (∀ o, parseCliArgs (bd :: args) = Except.ok o → o.placeholder = "$RESERVED$") ∧
    (∀ o, parseCliArgs (bd :: "-e" :: v :: args) = Except.ok o → o.placeholder = v) ∧
    (∀ fs distDir f c, fsRead fs (pathJoin distDir f) = some c →
      strContains c "$RESERVED$" = true →
      checkReserved fs distDir f "$RESERVED$" = Except.ok true) := by
  refine ⟨?_, ?_, ?_⟩
  · intro o h
    simp only [parseCliArgs] at h
    exact parseFlags_placeholder_stable args _ o h1 h2 h
  · intro o h
    simp [parseCliArgs, parseFlags, hv] at h
    exact parseFlags_placeholder_stable args
      (CliOpts.mk bd [] none v) o h1 h2 h
  · intro fs distDir f c hr hc
    unfold checkReserved
    rw [hr]
    show Except.ok (strContains c "$RESERVED$") = Except.ok true
    rw [hc]

/-- Witness for C9: omitted flag gives the reserved token, `-e XX` gives
the marker `XX`, and a file containing the reserved token is flagged
under the default marker. -/
theorem placeholder_default_and_override_witness :
    CliOpts.placeholder (CliOpts.mk "dist" [] none "$RESERVED$") = "$RESERVED$" ∧
    CliOpts.placeholder (CliOpts.mk "dist" [] none "XX") = "XX" ∧
    checkReserved (FS.mk [(["p", "x.js"], "a $RESERVED$ b")] []) ["p"] "x.js" "$RESERVED$" =
      Except.ok true := by
  have h := placeholder_default_and_override "dist" "XX" [] (by decide) (by simp) (by simp)
  exact ⟨h.1 _ rfl, h.2.1 _ rfl,
    h.2.2 (FS.mk [(["p", "x.js"], "a $RESERVED$ b")] []) ["p"] "x.js" "a $RESERVED$ b"
      rfl (by decide)⟩

/-- C10: the value of `-i`/`--exclude` is split on commas, each entry is
trimmed, and entries that become empty are discarded; a whitespace-heavy
value yields exactly the non-empty trimmed names, and a value of only
commas and spaces yields the empty exclusion list. -/
theorem exclude_list_from_commas (bd v : String) (hv : v ≠ "") :
    parseCliArgs [bd, "-i", v] =
      Except.ok (CliOpts.mk bd (((splitStr ',' v).map strTrim).filter (fun s => s != ""))
        none "$RESERVED$") ∧
    splitExcludes " foo , ,bar" = ["foo", "bar"] ∧
    splitExcludes " , , " = [] := by
  refine ⟨?_, by decide, by decide⟩
  simp [parseCliArgs, parseFlags, splitExcludes, hv]

/-- Witness for C10 at the concrete values from the claim. -/
theorem exclude_list_from_commas_witness :
    parseCliArgs ["d", "-i", " foo , ,bar"] =
      Except.ok (CliOpts.mk "d" ["foo", "bar"] none "$RESERVED$") := by
  have h := (exclude_list_from_commas "d" " foo , ,bar" (by decide)).1
  exact h.trans rfl

/-- C1: the synthesized descriptor of a retained group is determined by
the group's shape: both artifacts present gives import and require (the
two equal) plus types; a declaration-only group is retained and gives
only types; a field that is absent is omitted from the serialized
object, and no emitted field is ever null. -/
theorem descriptor_fields_by_shape (o : BuildOpts) (g : ModGroup) :
    (∀ jsF dtsF, g.js = some jsF → g.dts = some dtsF →
      buildEntry o g =
        ExportEntry.mk (some (refFor o jsF)) (some (refFor o jsF)) (some (refFor o dtsF))) ∧
    (∀ dtsF, g.js = none → g.dts = some dtsF →
      buildEntry o g = ExportEntry.mk none none (some (refFor o dtsF))) ∧
    (∀ fs base dtsF, g.js = none → g.dts = some dtsF →
      basename base ∉ o.excludeNames →
      checkReserved fs o.distDir dtsF o.placeholder = Except.ok false →
      processGroup fs o base g = Except.ok (GroupResult.keep (buildEntry o g))) ∧
    (getField (entryFields (buildEntry o g)) "import" =
       Option.map Json.str (buildEntry o g).importRef ∧
     getField (entryFields (buildEntry o g)) "require" =
       Option.map Json.str (buildEntry o g).requireRef ∧
     getField (entryFields (buildEntry o g)) "types" =
       Option.map Json.str (buildEntry o g).typesRef) ∧
    (∀ k j, getField (entryFields (buildEntry o g)) k = some j → j ≠ Json.null) := by
  refine ⟨?_, ?_, ?_, ?_, ?_⟩
  · intro jsF dtsF hj hd
    unfold buildEntry
    rw [hj, hd]
    rfl
  · intro dtsF hj hd
    unfold buildEntry
    rw [hj, hd]
    rfl
  · intro fs base dtsF hj hd hname hcr
    simp only [processGroup, if_neg hname, hj]
    simp only [processDts, hd, hcr]
  · rcases he : buildEntry o g with ⟨i, r, t⟩
    cases i <;> cases r <;> cases t <;> simp [entryFields, getField]
  · rcases he : buildEntry o g with ⟨i, r, t⟩
    intro k j hkj
    cases i <;> cases r <;> cases t <;>
      simp only [entryFields, getField, List.append_nil, List.nil_append,
        List.append_assoc] at hkj <;>
      (try split at hkj) <;> (try split at hkj) <;> (try split at hkj) <;>
      (intro hn; rw [hn] at hkj; simp at hkj)

/-- A snapshot with a single (clean) declaration-only artifact. -/
def fsOnly : FS :=
  FS.mk [(["p", "dist", "only.d.ts"], "declarations")] [["p"], ["p", "dist"]]

/-- Witness for C1: a both-artifacts group gives the three references
with import equal to require; a declaration-only group is kept by
processGroup and gives exactly the type reference. -/
theorem descriptor_fields_by_shape_witness :
    buildEntry oIdx (ModGroup.mk (some "index.js") (some "index.d.ts")) =
      ExportEntry.mk (some "./dist/index.js") (some "./dist/index.js")
        (some "./dist/index.d.ts") ∧
    buildEntry oIdx (ModGroup.mk none (some "only.d.ts")) =
      ExportEntry.mk none none (some "./dist/only.d.ts") ∧
    processGroup fsOnly oIdx "only" (ModGroup.mk none (some "only.d.ts")) =
      Except.ok (GroupResult.keep (buildEntry oIdx (ModGroup.mk none (some "only.d.ts")))) := by
  refine ⟨?_, ?_, ?_⟩
  · exact ((descriptor_fields_by_shape oIdx
      (ModGroup.mk (some "index.js") (some "index.d.ts"))).1
        "index.js" "index.d.ts" rfl rfl).trans rfl
  · exact ((descriptor_fields_by_shape oIdx
      (ModGroup.mk none (some "only.d.ts"))).2.1 "only.d.ts" rfl rfl).trans rfl
  · exact (descriptor_fields_by_shape oIdx
      (ModGroup.mk none (some "only.d.ts"))).2.2.1 fsOnly "only" "only.d.ts"
        rfl rfl (by decide) rfl

/-- The declaration-side filter never reports a basename skip. -/
theorem processDts_ne_skipName (fs : FS) (o : BuildOpts) (g : ModGroup) :
    processDts fs o g ≠ Except.ok GroupResult.skipName := by
  unfold processDts
  split
  · split <;> simp
  · simp

/-- C5: name-based exclusion drops exactly the groups whose basename is
in the exclusion list: with no content-marker interference the loop
succeeds with no warnings and its map holds precisely the non-excluded
groups in order; a group is skipped by name exactly when its basename is
listed; and the basename ignores the directory, so exclusion of
`foo` drops both `foo` and `bar/foo`. -/
theorem name_exclusion_exact (fs : FS) (o : BuildOpts) (l : List (String × ModGroup))
    (hclean : ∀ p ∈ l, ∀ f, (p.2.js = some f ∨ p.2.dts = some f) →
      checkReserved fs o.distDir f o.placeholder = Except.ok false) :
    buildGroupsLoop fs o l =
      Except.ok ((l.filter (fun p => decide (basename p.1 ∉ o.excludeNames))).map
        (fun p => ("./" ++ p.1, buildEntry o p.2)), []) ∧
    (∀ base g, processGroup fs o base g = Except.ok GroupResult.skipName ↔
      basename base ∈ o.excludeNames) ∧
    basename "bar/foo" = "foo" ∧ basename "foo" = "foo" := by
  refine ⟨?_, ?_, by decide, by decide⟩
  · induction l with
    | nil => simp [buildGroupsLoop]
    | cons p rest ih =>
      obtain ⟨b, g⟩ := p
      have hrest := ih (fun q hq => hclean q (List.mem_cons_of_mem _ hq))
      by_cases hb : basename b ∈ o.excludeNames
      · have hpg : processGroup fs o b g = Except.ok GroupResult.skipName := by
          unfold processGroup
          rw [if_pos hb]
        simp [buildGroupsLoop, hpg, hrest, hb]
      · have hjs : ∀ f, g.js = some f →
            checkReserved fs o.distDir f o.placeholder = Except.ok false :=
          fun f hf => hclean (b, g) (List.mem_cons_self _ _) f (Or.inl hf)
        have hdts : ∀ f, g.dts = some f →
            checkReserved fs o.distDir f o.placeholder = Except.ok false :=
          fun f hf => hclean (b, g) (List.mem_cons_self _ _) f (Or.inr hf)
        have hpd : processDts fs o g = Except.ok (GroupResult.keep (buildEntry o g)) := by
          unfold processDts
          split
          · rename_i dtsF heq
            rw [hdts dtsF heq]
          · rfl
        have hpg : processGroup fs o b g =
            Except.ok (GroupResult.keep (buildEntry o g)) := by
          unfold processGroup
          rw [if_neg hb]
          split
          · rename_i jsF heq
            rw [hjs jsF heq]
            exact hpd
          · exact hpd
        simp [buildGroupsLoop, hpg, hrest, hb]
  · intro base g
    constructor
    · intro h
      by_contra hb
      unfold processGroup at h
      rw [if_neg hb] at h
      split at h
      · split at h
        · simp at h
        · simp at h
        · exact processDts_ne_skipName fs o g h
      · exact processDts_ne_skipName fs o g h
    · intro hb
      unfold processGroup
      rw [if_pos hb]

/-- Options excluding the basename `foo`, and a snapshot with a nested
`bar/foo.js` artifact. -/
def oFoo : BuildOpts :=
  BuildOpts.mk "/" ["p", "dist"] ["p"] ["foo"] "$RESERVED$"

/-- Snapshot for the nested-exclusion witness. -/
def fsFoo : FS :=
  FS.mk [(["p", "dist", "bar", "foo.js"], "a")] [["p"], ["p", "dist"]]

/-- Witness for C5: with exclusion list `[foo]` the nested group
`bar/foo` is dropped (basename match, independent of directory). -/
theorem name_exclusion_exact_witness :
    buildGroupsLoop fsFoo oFoo [("bar/foo", ModGroup.mk (some "bar/foo.js") none)] =
      Except.ok ([], []) := by
  have hclean : ∀ p ∈ [("bar/foo", ModGroup.mk (some "bar/foo.js") none)], ∀ f : String,
      (p.2.js = some f ∨ p.2.dts = some f) →
      checkReserved fsFoo oFoo.distDir f oFoo.placeholder = Except.ok false := by
    intro p hp f hf
    simp only [List.mem_singleton] at hp
    subst hp
    rcases hf with h1 | h1
    · have hfe : f = "bar/foo.js" := by simpa using h1.symm
      subst hfe
      rfl
    · simp at h1
  exact ((name_exclusion_exact fsFoo oFoo _ hclean).1).trans rfl

/-! ## Path rendering lemmas (for C6) -/

/-- Gluing `String.mk` over list append. -/
theorem mk_append (a b : List Char) : String.mk a ++ String.mk b = String.mk (a ++ b) :=
  rfl

/-- replaceBackslash distributes over string append. -/
theorem replaceBackslash_append (a b : String) :
    replaceBackslash (a ++ b) = replaceBackslash a ++ replaceBackslash b := by
  cases a with | mk la =>
  cases b with | mk lb =>
  unfold replaceBackslash
  rw [mk_append, mk_append]
  simp [List.map_append]

/-- replaceBackslash is the identity on backslash-free strings. -/
theorem replaceBackslash_clean (s : String) (h : hasBackslash s = false) :
    replaceBackslash s = s := by
  cases s with | mk l =>
  unfold replaceBackslash hasBackslash at *
  simp only [List.any_eq_false] at h
  congr 1
  induction l with
  | nil => rfl
  | cons c rest ih =>
    have hc : ¬ (c == '\\') = true := h c (by simp)
    simp only [beq_iff_eq] at hc
    simp only [List.map_cons, if_neg hc]
    rw [ih (fun x hx => h x (by simp [hx]))]

/-- The output of replaceBackslash never contains a backslash. -/
theorem hasBackslash_replaceBackslash (s : String) :
    hasBackslash (replaceBackslash s) = false := by
  cases s with | mk l =>
  unfold replaceBackslash hasBackslash
  simp only [List.any_eq_false, List.mem_map]
  rintro c ⟨c0, -, rfl⟩
  by_cases hc : c0 = '\\' <;> simp [hc]

/-- hasBackslash over append. -/
theorem hasBackslash_append (a b : String) :
    hasBackslash (a ++ b) = (hasBackslash a || hasBackslash b) := by
  cases a with | mk la =>
  cases b with | mk lb =>
  unfold hasBackslash
  rw [mk_append]
  simp [List.any_append]

/-- A join of backslash-free segments with a backslash-free separator is
backslash-free. -/
theorem hasBackslash_joinSegs (sep : String) (l : List String)
    (hsep : hasBackslash sep = false) (h : ∀ s ∈ l, hasBackslash s = false) :
    hasBackslash (joinSegs sep l) = false := by
  induction l with
  | nil => rfl
  | cons a rest ih =>
    cases rest with
    | nil => exact h a (by simp)
    | cons b rest2 =>
      show hasBackslash (a ++ sep ++ joinSegs sep (b :: rest2)) = false
      rw [hasBackslash_append, hasBackslash_append]
      rw [h a (by simp), hsep, ih (fun s hs => h s (by simp [List.mem_cons] at hs ⊢; tauto))]
      rfl

/-- Rendering backslash-free segments with the Windows separator and
then replacing backslashes equals rendering with forward slashes. -/
theorem replaceBackslash_joinSegs_backslash (l : List String)
    (h : ∀ s ∈ l, hasBackslash s = false) :
    replaceBackslash (joinSegs "\\" l) = joinSegs "/" l := by
  induction l with
  | nil => rfl
  | cons a rest ih =>
    cases rest with
    | nil => exact replaceBackslash_clean a (h a (by simp))
    | cons b rest2 =>
      show replaceBackslash (a ++ "\\" ++ joinSegs "\\" (b :: rest2)) =
        a ++ "/" ++ joinSegs "/" (b :: rest2)
      rw [replaceBackslash_append, replaceBackslash_append]
      rw [replaceBackslash_clean a (h a (by simp))]
      rw [ih (fun s hs => h s (by simp [List.mem_cons] at hs ⊢; tauto))]
      rfl

/-- Dropping a shared prefix reduces to the remainders. -/
theorem dropCommon_append (c f t : List String) :
    dropCommon (c ++ f) (c ++ t) = dropCommon f t := by
  induction c with
  | nil => rfl
  | cons a rest ih => simp [dropCommon, ih]

/-- With differing heads nothing more is dropped. -/
theorem dropCommon_of_head_ne (f t : List String)
    (h : ∀ x xs y ys, f = x :: xs → t = y :: ys → x ≠ y) :
    dropCommon f t = (f, t) := by
  cases f with
  | nil => cases t <;> rfl
  | cons x xs =>
    cases t with
    | nil => rfl
    | cons y ys =>
      simp [dropCommon, if_neg (h x xs y ys rfl rfl)]

/-- The target remainder of dropCommon is made of elements of the
target. -/
theorem dropCommon_snd_subset : ∀ (f t : List String), (dropCommon f t).2 ⊆ t := by
  intro f
  induction f with
  | nil => intro t; cases t <;> simp [dropCommon]
  | cons a as ih =>
    intro t
    cases t with
    | nil => simp [dropCommon]
    | cons b bs =>
      by_cases hab : a = b
      · simp only [dropCommon, if_pos hab]
        exact fun x hx => List.mem_cons_of_mem _ (ih bs hx)
      · simp [dropCommon, if_neg hab]

/-- C6: a kept group contributes the key "./" ++ modulePath; every
emitted reference is the artifact's path relative to the manifest
directory prefixed with "./"; rendered relative paths never contain a
backslash, and under either host separator convention they equal the
forward-slash join; when the paths diverge after a common prefix the
relative segments ascend with ".." entries. -/
theorem keys_and_refs_normalized :
    (∀ (fs : FS) (o : BuildOpts) (base : String) (g : ModGroup) (e : ExportEntry)
        (rest : List (String × ModGroup)) (m : List (String × ExportEntry)) (ws : List String),
      processGroup fs o base g = Except.ok (GroupResult.keep e) →
      buildGroupsLoop fs o rest = Except.ok (m, ws) →
      buildGroupsLoop fs o ((base, g) :: rest) = Except.ok (("./" ++ base, e) :: m, ws)) ∧
    (∀ (o : BuildOpts) (g : ModGroup) (jsF : String), g.js = some jsF →
      (buildEntry o g).importRef =
        some ("./" ++ makeRelativePath o.sep o.pkgDir (pathJoin o.distDir jsF)) ∧
      (buildEntry o g).requireRef =
        some ("./" ++ makeRelativePath o.sep o.pkgDir (pathJoin o.distDir jsF))) ∧
    (∀ (o : BuildOpts) (g : ModGroup) (dtsF : String), g.dts = some dtsF →
      (buildEntry o g).typesRef =
        some ("./" ++ makeRelativePath o.sep o.pkgDir (pathJoin o.distDir dtsF))) ∧
    (∀ (sep : String) (pd a : List String),
      hasBackslash (makeRelativePath sep pd a) = false) ∧
    (∀ (sep : String) (pd a : List String), (sep = "/" ∨ sep = "\\") →
      (∀ s ∈ a, hasBackslash s = false) →
      makeRelativePath sep pd a = joinSegs "/" (relSegs pd a)) ∧
    (∀ (common f t : List String),
      (∀ x xs y ys, f = x :: xs → t = y :: ys → x ≠ y) →
      relSegs (common ++ f) (common ++ t) = f.map (fun _ => "..") ++ t) := by
  refine ⟨?_, ?_, ?_, ?_, ?_, ?_⟩
  · intro fs o base g e rest m ws h1 h2
    simp [buildGroupsLoop, h1, h2]
  · intro o g jsF hj
    unfold buildEntry refFor
    rw [hj]
    exact ⟨rfl, rfl⟩
  · intro o g dtsF hd
    unfold buildEntry refFor
    rw [hd]
    rfl
  · intro sep pd a
    exact hasBackslash_replaceBackslash _
  · intro sep pd a hsep ha
    have hel : ∀ s ∈ relSegs pd a, hasBackslash s = false := by
      intro s hs
      unfold relSegs at hs
      simp only [List.mem_append, List.mem_map] at hs
      rcases hs with ⟨x, -, rfl⟩ | hs
      · decide
      · exact ha s (dropCommon_snd_subset pd a hs)
    rcases hsep with rfl | rfl
    · exact replaceBackslash_clean _ (hasBackslash_joinSegs "/" _ (by decide) hel)
    · exact replaceBackslash_joinSegs_backslash _ hel
  · intro common f t h
    unfold relSegs
    rw [dropCommon_append, dropCommon_of_head_ne f t h]

/-- Witness for C6: a kept declaration-only group contributes its
"./only" key; a build directory beside the manifest directory yields an
ascending "../build/x.js" reference, backslash-free even under the
Windows separator. -/
theorem keys_and_refs_normalized_witness :
    buildGroupsLoop fsOnly oIdx [("only", ModGroup.mk none (some "only.d.ts"))] =
      Except.ok ([("./only", buildEntry oIdx (ModGroup.mk none (some "only.d.ts")))], []) ∧
    relSegs ["a", "pkg"] ["a", "build", "x.js"] = ["..", "build", "x.js"] ∧
    makeRelativePath "\\" ["a", "pkg"] ["a", "build", "x.js"] = "../build/x.js" ∧
    hasBackslash (makeRelativePath "\\" ["a", "pkg"] ["a", "build", "x.js"]) = false := by
  have h := keys_and_refs_normalized
  refine ⟨h.1 fsOnly oIdx "only" _ _ [] [] [] rfl rfl, ?_, ?_,
    h.2.2.2.1 "\\" ["a", "pkg"] ["a", "build", "x.js"]⟩
  · refine (h.2.2.2.2.2 ["a"] ["pkg"] ["build", "x.js"] ?_).trans rfl
    intro x xs y ys hx hy
    cases hx
    cases hy
    decide
  · exact (h.2.2.2.2.1 "\\" ["a", "pkg"] ["a", "build", "x.js"]
      (Or.inr rfl) (by decide)).trans rfl

/-! ## Grouping lemmas (for C8) -/

/-- Stripping a verified suffix and appending it back restores the
string. -/
theorem strDropRight_append_of_suffix (f suff : String) (h : strEndsWith f suff = true) :
    strDropRight f suff.data.length ++ suff = f := by
  unfold strEndsWith at h
  rw [List.isSuffixOf_iff_suffix] at h
  obtain ⟨t, ht⟩ := h
  unfold strDropRight
  cases f with | mk l =>
  cases suff with | mk sl =>
  rw [mk_append]
  congr 1
  simp only at ht ⊢
  subst ht
  have hlen : (t ++ sl).length - sl.length = t.length := by simp
  rw [hlen, List.take_left]

/-- A file classified as a runtime artifact with base `b` is exactly
`b ++ ".js"`. -/
theorem classify_js (f b : String) (h : classify f = some (b, true)) :
    f = b ++ ".js" := by
  unfold classify at h
  split at h
  · rename_i hjs
    simp only [Option.some.injEq, Prod.mk.injEq] at h
    obtain ⟨hb, -⟩ := h
    subst hb
    have hres := strDropRight_append_of_suffix f ".js" hjs
    have h3 : (".js" : String).data.length = 3 := rfl
    rw [h3] at hres
    exact hres.symm
  · split at h <;> simp_all

/-- A file classified as a declaration artifact with base `b` is exactly
`b ++ ".d.ts"`. -/
theorem classify_dts (f b : String) (h : classify f = some (b, false)) :
    f = b ++ ".d.ts" := by
  unfold classify at h
  split at h
  · simp_all
  · split at h
    · rename_i hdts
      simp only [Option.some.injEq, Prod.mk.injEq] at h
      obtain ⟨hb, -⟩ := h
      subst hb
      have hres := strDropRight_append_of_suffix f ".d.ts" hdts
      have h5 : (".d.ts" : String).data.length = 5 := rfl
      rw [h5] at hres
      exact hres.symm
    · simp_all

/-- Lookup after the ordered update: the updated base maps to the
updated group, everything else is unchanged. -/
theorem lookupGroup_updateAssoc (acc : List (String × ModGroup)) (base base1 : String)
    (isJs : Bool) (file : String) :
    lookupGroup (updateAssoc acc base isJs file) base1 =
      if base = base1 then
        some (setExt ((lookupGroup acc base1).getD (ModGroup.mk none none)) isJs file)
      else lookupGroup acc base1 := by
  induction acc with
  | nil =>
    by_cases h : base = base1 <;> simp [updateAssoc, lookupGroup, h]
  | cons p rest ih =>
    obtain ⟨b, g⟩ := p
    by_cases hb : b = base
    · subst hb
      simp only [updateAssoc, if_pos rfl]
      by_cases h1 : b = base1
      · subst h1
        simp [lookupGroup]
      · simp [lookupGroup, h1]
    · simp only [updateAssoc, if_neg hb]
      by_cases h1 : b = base1
      · subst h1
        have hne : base ≠ b := fun hh => hb hh.symm
        simp [lookupGroup, hne]
      · simp only [lookupGroup, if_neg h1]
        rw [ih]

/-- Soundness of the grouping fold: every group slot holds an artifact
from the processed set whose name is the base plus the matching
extension. -/
theorem groupFold_sound (S : String → Prop) :
    ∀ (l : List String) (acc : List (String × ModGroup)),
    (∀ f ∈ l, S f) →
    (∀ base g, lookupGroup acc base = some g →
      (∀ f, g.js = some f → S f ∧ f = base ++ ".js") ∧
      (∀ f, g.dts = some f → S f ∧ f = base ++ ".d.ts")) →
    (∀ base g, lookupGroup (l.foldl groupStep acc) base = some g →
      (∀ f, g.js = some f → S f ∧ f = base ++ ".js") ∧
      (∀ f, g.dts = some f → S f ∧ f = base ++ ".d.ts")) := by
  intro l
  induction l with
  | nil => intro acc hl hacc; simpa using hacc
  | cons x l2 ih =>
    intro acc hl hacc
    simp only [List.foldl_cons]
    apply ih
    · exact fun f hf => hl f (List.mem_cons_of_mem _ hf)
    · intro base g hg
      unfold groupStep at hg
      cases hc : classify x with
      | none => rw [hc] at hg; exact hacc base g hg
      | some p =>
        obtain ⟨b, isJs⟩ := p
        rw [hc, lookupGroup_updateAssoc] at hg
        by_cases hbb : b = base
        · rw [if_pos hbb] at hg
          simp only [Option.some.injEq] at hg
          subst hg
          subst hbb
          have hSx : S x := hl x (List.mem_cons_self _ _)
          have hg0 : (∀ f, ((lookupGroup acc b).getD (ModGroup.mk none none)).js = some f →
                S f ∧ f = b ++ ".js") ∧
              (∀ f, ((lookupGroup acc b).getD (ModGroup.mk none none)).dts = some f →
                S f ∧ f = b ++ ".d.ts") := by
            cases hlk : lookupGroup acc b with
            | none =>
              constructor <;> intro f hf <;> simp [Option.getD] at hf
            | some g1 => simpa [Option.getD] using hacc b g1 hlk
          cases isJs with
          | true =>
            constructor
            · intro f hf
              simp [setExt] at hf
              subst hf
              exact ⟨hSx, classify_js x b hc⟩
            · intro f hf
              simp [setExt] at hf
              exact hg0.2 f hf
          | false =>
            constructor
            · intro f hf
              simp [setExt] at hf
              exact hg0.1 f hf
            · intro f hf
              simp [setExt] at hf
              subst hf
              exact ⟨hSx, classify_dts x b hc⟩
        · rw [if_neg hbb] at hg
          exact hacc base g hg

/-- Once a group's runtime slot holds its canonical artifact, the rest
of the fold preserves it. -/
theorem groupFold_js_preserved :
    ∀ (l : List String) (acc : List (String × ModGroup)) (b : String),
    (∃ g, lookupGroup acc b = some g ∧ g.js = some (b ++ ".js")) →
    ∃ g, lookupGroup (l.foldl groupStep acc) b = some g ∧ g.js = some (b ++ ".js") := by
  intro l
  induction l with
  | nil => intro acc b h; simpa using h
  | cons x l2 ih =>
    intro acc b h
    simp only [List.foldl_cons]
    apply ih
    obtain ⟨g, hlk, hjs⟩ := h
    unfold groupStep
    cases hc : classify x with
    | none => exact ⟨g, hlk, hjs⟩
    | some p =>
      obtain ⟨b2, isJs⟩ := p
      rw [lookupGroup_updateAssoc]
      by_cases hbb : b2 = b
      · subst hbb
        rw [if_pos rfl]
        refine ⟨_, rfl, ?_⟩
        rw [hlk]
        cases isJs with
        | true =>
          have hx := classify_js x b2 hc
          simp [setExt, Option.getD]
          exact hx
        | false =>
          simp [setExt, Option.getD]
          exact hjs
      · rw [if_neg hbb]
        exact ⟨g, hlk, hjs⟩

/-- Once a group's declaration slot holds its canonical artifact, the
rest of the fold preserves it. -/
theorem groupFold_dts_preserved :
    ∀ (l : List String) (acc : List (String × ModGroup)) (b : String),
    (∃ g, lookupGroup acc b = some g ∧ g.dts = some (b ++ ".d.ts")) →
    ∃ g, lookupGroup (l.foldl groupStep acc) b = some g ∧ g.dts = some (b ++ ".d.ts") := by
  intro l
  induction l with
  | nil => intro acc b h; simpa using h
  | cons x l2 ih =>
    intro acc b h
    simp only [List.foldl_cons]
    apply ih
    obtain ⟨g, hlk, hdts⟩ := h
    unfold groupStep
    cases hc : classify x with
    | none => exact ⟨g, hlk, hdts⟩
    | some p =>
      obtain ⟨b2, isJs⟩ := p
      rw [lookupGroup_updateAssoc]
      by_cases hbb : b2 = b
      · subst hbb
        rw [if_pos rfl]
        refine ⟨_, rfl, ?_⟩
        rw [hlk]
        cases isJs with
        | true =>
          simp [setExt, Option.getD]
          exact hdts
        | false =>
          have hx := classify_dts x b2 hc
          simp [setExt, Option.getD]
          exact hx
      · rw [if_neg hbb]
        exact ⟨g, hlk, hdts⟩

/-- Completeness of the grouping fold: every classified artifact lands
in the group keyed by its stripped path. -/
theorem groupFold_complete :
    ∀ (l : List String) (acc : List (String × ModGroup)) (f b : String) (isJs : Bool),
    f ∈ l → classify f = some (b, isJs) →
    ∃ g, lookupGroup (l.foldl groupStep acc) b = some g ∧
      (isJs = true → g.js = some f) ∧ (isJs = false → g.dts = some f) := by
  intro l
  induction l with
  | nil => intro acc f b isJs hf; simp at hf
  | cons x l2 ih =>
    intro acc f b isJs hf hc
    simp only [List.foldl_cons]
    rcases List.mem_cons.mp hf with rfl | hf2
    · cases isJs with
      | true =>
        have hfx : f = b ++ ".js" := classify_js f b hc
        have hstep : ∃ g, lookupGroup (groupStep acc f) b = some g ∧
            g.js = some (b ++ ".js") := by
          unfold groupStep
          rw [hc, lookupGroup_updateAssoc, if_pos rfl]
          refine ⟨_, rfl, ?_⟩
          simp [setExt]
          exact hfx
        obtain ⟨g, hlk, hjs⟩ := groupFold_js_preserved l2 (groupStep acc f) b hstep
        refine ⟨g, hlk, fun _ => ?_, fun hff => by simp at hff⟩
        rw [hjs, hfx]
      | false =>
        have hfx : f = b ++ ".d.ts" := classify_dts f b hc
        have hstep : ∃ g, lookupGroup (groupStep acc f) b = some g ∧
            g.dts = some (b ++ ".d.ts") := by
          unfold groupStep
          rw [hc, lookupGroup_updateAssoc, if_pos rfl]
          refine ⟨_, rfl, ?_⟩
          simp [setExt]
          exact hfx
        obtain ⟨g, hlk, hdts⟩ := groupFold_dts_preserved l2 (groupStep acc f) b hstep
        refine ⟨g, hlk, fun hff => by simp at hff, fun _ => ?_⟩
        rw [hdts, hfx]
    · exact ih (groupStep acc x) f b isJs hf2 hc

/-- C8: the grouping invariant.  Every slot of every constructed group
holds a collected artifact that is exactly the group's base plus the
matching extension (so a group holds at most one runtime and at most
one declaration artifact), and every two artifacts with equal stripped
paths land in the same group: each classified artifact is present in
the slot of the group looked up by its stripped path. -/
theorem grouping_invariant (files : List String) :
    (∀ base g, lookupGroup (groupFiles files) base = some g →
      (∀ f, g.js = some f → f ∈ files ∧ f = base ++ ".js") ∧
      (∀ f, g.dts = some f → f ∈ files ∧ f = base ++ ".d.ts")) ∧
    (∀ f ∈ files, ∀ b isJs, classify f = some (b, isJs) →
      ∃ g, lookupGroup (groupFiles files) b = some g ∧
        (isJs = true → g.js = some f) ∧ (isJs = false → g.dts = some f)) := by
  constructor
  · intro base g h
    exact groupFold_sound (fun f => f ∈ files) files [] (fun f hf => hf)
      (by intro b2 g2 h2; simp [lookupGroup] at h2) base g h
  · intro f hf b isJs hc
    exact groupFold_complete files [] f b isJs hf hc

/-- Witness for C8: on the concrete file list the group of `a` holds
exactly `a.js` and `a.d.ts`, the runtime slot content decomposes as
base plus extension, and the declaration artifact is found in its
group. -/
theorem grouping_invariant_witness :
    ("a.js" ∈ ["a.js", "a.d.ts", "b/c.js"] ∧ "a.js" = "a" ++ ".js") ∧
    (∃ g, lookupGroup (groupFiles ["a.js", "a.d.ts", "b/c.js"]) "a" = some g ∧
      (true = true → g.js = some "a.js") ∧ (true = false → g.dts = some "a.js")) := by
  have h := grouping_invariant ["a.js", "a.d.ts", "b/c.js"]
  constructor
  · exact (h.1 "a" (ModGroup.mk (some "a.js") (some "a.d.ts")) rfl).1 "a.js" rfl
  · exact h.2 "a.js" (by simp) "a" true rfl
